import Mathlib

/-!
Verification of the onlinegarn backend core: the cache-aside layer
(`buildCacheKey`, `getCached`), the catalog sync engine (`sanitizeId`,
`transformProduct`, `fetchAllProducts`), the completion-call retry wrapper
(`withRetry`) and the streaming chat turn of `handleConnection`.

The TypeScript services are shallowly embedded: strings are Lean `String`,
JavaScript `undefined`/`null` become `Option`, thrown exceptions become
`Except`, awaited effect outcomes are passed in as explicit values, and
loops become fuel-indexed or structural recursion.  Floating point is not
modelled: the single `parseFloat` site keeps the unparsed decimal string.
-/

namespace Onlinegarn

/-! ## Cache layer (`services/cache` : `buildCacheKey`, `getCached`) -/

/-- `CACHE_TTL_SECONDS = 600` (10 minutes). -/
def CACHE_TTL_SECONDS : Nat := 600

/-- Ordinal (code-point lexicographic) comparison of strings, embedding the
comparator the source passes to `Array.prototype.sort` when ordering cache
parameter keys. -/
def lexLe : List Char → List Char → Bool
  | [], _ => true
  | _ :: _, [] => false
  | a :: as, b :: bs =>
    if a.toNat < b.toNat then true
    else if b.toNat < a.toNat then false
    else lexLe as bs

/-- One invocation of the store's `set` operation: key, serialized value,
`EX` expiry in seconds. -/
structure StoreWrite where
  key : String
  value : String
  expireSeconds : Nat
deriving DecidableEq, Repr

/-- `buildCacheKey(prefix, params)`.  A params object is embedded as an
insertion-ordered association list; a `string | number` value is embedded as
its interpolated text (`Option.none` is `undefined`/`null`).  Entries with
absent values are filtered out, the rest are sorted by key (the source sorts
with `localeCompare`, embedded as the ordinal order on strings), joined as
`k=v` pairs with `&`, and prefixed with `cache:` and the given prefix. -/
def buildCacheKey (pre : String) (params : List (String × Option String)) : String :=
  let filtered := (params.filterMap fun kv => kv.2.map fun v => (kv.1, v)).insertionSort
    fun a b => lexLe a.1.data b.1.data = true
  if filtered.isEmpty then
    "cache:" ++ pre
  else
    "cache:" ++ pre ++ ":" ++ String.intercalate "&" (filtered.map fun kv => kv.1 ++ "=" ++ kv.2)

/-- `getCached(cacheKey, fetcher)`.  The awaited outcomes of the three
effectful steps are passed in explicitly: `getR` is `redis.get(cacheKey)`
(`none` = miss), `fetchR` is `fetcher()`, `setR` is `redis.set(...)`; each
may fail with an error `E` (a rejected promise).  `deser`/`ser` embed
`JSON.parse`/`JSON.stringify`.  The result records the returned-or-thrown
value, every `set` invocation performed, and how many times the fetcher ran. -/
def getCached {E T : Type} (getR : Except E (Option String)) (fetchR : Except E T)
    (setR : Except E Unit) (deser : String → T) (ser : T → String) (cacheKey : String) :
    Except E T × List StoreWrite × Nat :=
  match getR with
  | Except.error e => (Except.error e, [], 0)
  | Except.ok (some cached) => (Except.ok (deser cached), [], 0)
  | Except.ok none =>
    match fetchR with
    | Except.error e => (Except.error e, [], 1)
    | Except.ok v =>
      match setR with
      | Except.error e => (Except.error e, [⟨cacheKey, ser v, CACHE_TTL_SECONDS⟩], 1)
      | Except.ok _ => (Except.ok v, [⟨cacheKey, ser v, CACHE_TTL_SECONDS⟩], 1)

/-! ## Catalog sync engine (`services/product-sync`) -/

/-- `sanitizeId` removes the first occurrence of `gid://` (JavaScript
`String.replace` with a string pattern replaces only the first match) and
then replaces every `/` with `-`. -/
def removeFirstOcc (pat : List Char) : List Char → List Char
  | [] => []
  | c :: cs =>
    if pat.isPrefixOf (c :: cs) then (c :: cs).drop pat.length
    else c :: removeFirstOcc pat cs

/-- `sanitizeId(gid)`: `gid.replace('gid://', '').replace(/\//g, '-')`. -/
def sanitizeId (gid : String) : String :=
  String.mk ((removeFirstOcc "gid://".data gid.data).map fun c => if c = '/' then '-' else c)

/-- A character Meilisearch accepts in a document id: alphanumeric, hyphen
or underscore. -/
def isMeiliSafeChar (c : Char) : Bool :=
  c.isAlphanum || c = '-' || c = '_'

/-- `collections.edges[].node` of the sync query (edge wrappers flattened). -/
structure SyncCollection where
  title : String
  handle : String
deriving DecidableEq, Repr

/-- `priceRangeV2.minVariantPrice`. -/
structure SyncMoney where
  amount : String
  currencyCode : String
deriving DecidableEq, Repr

structure SyncImage where
  url : String
  altText : Option String
deriving DecidableEq, Repr

/-- `media.edges[].node`: a media node with its `__typename` discriminant and
the image payload present only on `MediaImage` nodes. -/
structure SyncMediaNode where
  typename : String
  image : Option SyncImage
deriving DecidableEq, Repr

structure SyncSelectedOption where
  name : String
  value : String
deriving DecidableEq, Repr

/-- `variants.edges[].node`. -/
structure SyncVariant where
  id : String
  title : String
  price : String
  inventoryQuantity : Int
  selectedOptions : List SyncSelectedOption
deriving DecidableEq, Repr

structure SyncOption where
  name : String
  values : List String
deriving DecidableEq, Repr

/-- A product node of the sync query; GraphQL `edges`/`node` wrappers are
flattened into plain lists. -/
structure SyncProduct where
  id : String
  title : String
  description : String
  handle : String
  minVariantPrice : SyncMoney
  media : List SyncMediaNode
  variants : List SyncVariant
  options : List SyncOption
  collections : List SyncCollection
deriving DecidableEq, Repr

structure MeiliVariant where
  id : String
  title : String
  price : String
  inventoryQuantity : Int
  selectedOptions : List SyncSelectedOption
deriving DecidableEq, Repr

/-- The Meilisearch document shape.  `minPriceAmount` is `parseFloat` of the
upstream decimal string in the source; IEEE-754 is not modelled, so the
unparsed string is carried instead (no claim depends on the parsed value). -/
structure MeiliProductDocument where
  id : String
  title : String
  description : String
  handle : String
  minPriceAmount : String
  minPriceCurrency : String
  images : List SyncImage
  variants : List MeiliVariant
  options : List SyncOption
  variantTitles : List String
  collections : List String
  collectionHandles : List String
deriving DecidableEq, Repr

/-- `transformProduct(product)`. -/
def transformProduct (p : SyncProduct) : MeiliProductDocument :=
  let images := (p.media.filter fun m => m.typename = "MediaImage" ∧ m.image.isSome).filterMap
    fun m => m.image
  let variants := p.variants.map fun v =>
    MeiliVariant.mk v.id v.title v.price v.inventoryQuantity v.selectedOptions
  { id := sanitizeId p.id
    title := p.title
    description := p.description
    handle := p.handle
    minPriceAmount := p.minVariantPrice.amount
    minPriceCurrency := p.minVariantPrice.currencyCode
    images := images
    variants := variants
    options := p.options
    variantTitles := variants.map fun v => v.title
    collections := p.collections.map fun c => c.title
    collectionHandles := p.collections.map fun c => c.handle }

structure SyncPageInfo where
  hasNextPage : Bool
  endCursor : Option String
deriving DecidableEq, Repr

/-- One page of the paginated sync query (`products.edges[].node` flattened). -/
structure SyncPage where
  pageInfo : SyncPageInfo
  nodes : List SyncProduct
deriving DecidableEq, Repr

/-- The loop state of `fetchAllProducts`: the accumulator, the `hasNextPage`
flag and the `after` cursor. -/
structure FetchState where
  allProducts : List MeiliProductDocument
  hasNextPage : Bool
  after : Option String
deriving DecidableEq, Repr

/-- `after = productsData.pageInfo.endCursor || undefined`: the empty string
is falsy in JavaScript, so an empty cursor also becomes absent. -/
def nextAfter (pi : SyncPageInfo) : Option String :=
  match pi.endCursor with
  | some c => if c = "" then none else some c
  | none => none

/-- The body of the `while (hasNextPage)` loop of `fetchAllProducts`, run on
the response of one GraphQL request.  The upstream is embedded as a function
from the request index to `response.data?.products` (`none` embeds a missing
top-level data shape, which the source turns into a thrown error).  `fuel`
bounds the number of iterations the embedding will unfold; `none` as overall
result means the loop was still running when the fuel ran out. -/
def fetchAllProductsGo (server : Nat → Option SyncPage) :
    Nat → FetchState → Nat → Option (Except Unit (List MeiliProductDocument))
  | _, _, 0 => none
  | i, st, fuel + 1 =>
    if st.hasNextPage then
      match server i with
      | none => some (Except.error ())
      | some page =>
        fetchAllProductsGo server (i + 1)
          ⟨st.allProducts ++ page.nodes.map transformProduct,
           page.pageInfo.hasNextPage, nextAfter page.pageInfo⟩ fuel
    else some (Except.ok st.allProducts)

/-- `fetchAllProducts()` with the stated fuel: starts with an empty
accumulator, `hasNextPage = true` and no cursor. -/
def fetchAllProducts (server : Nat → Option SyncPage) (fuel : Nat) :
    Option (Except Unit (List MeiliProductDocument)) :=
  fetchAllProductsGo server 0 ⟨[], true, none⟩ fuel

/-- The loop of `fetchAllProducts` terminates on a given upstream: some
amount of fuel suffices for it to return (normally or with a thrown error). -/
def FetchTerminates (server : Nat → Option SyncPage) : Prop :=
  ∃ fuel, (fetchAllProducts server fuel).isSome

/-- An upstream response on which the source's loop stops: a malformed
response (thrown error) or a page reporting `hasNextPage = false`. -/
def TerminalResponse (r : Option SyncPage) : Prop :=
  r = none ∨ ∃ p, r = some p ∧ p.pageInfo.hasNextPage = false

/-! ## Completion-call retry wrapper (`withRetry`) -/

/-- `MAX_ATTEMPTS = 3` (1 original + 2 retries). -/
def MAX_ATTEMPTS : Nat := 3

/-- `RETRY_BASE_DELAY_MS = 500`. -/
def RETRY_BASE_DELAY_MS : Nat := 500

/-- What one `withRetry` run did: the value returned or error thrown (the
source throws the captured `lastError`, which is still unset when
`maxAttempts = 0`, hence `Option E`), the number of attempts made, and the
backoff delays awaited between consecutive attempts, in order. -/
structure RetryTrace (E T : Type) where
  result : Except (Option E) T
  attemptsMade : Nat
  delays : List Nat

/-- The `for (attempt = 1; attempt <= maxAttempts; attempt++)` loop of
`withRetry`.  `f` gives the awaited outcome of `fn()` on each attempt
(1-indexed).  `remaining` is the loop-to-fuel translation of
`maxAttempts + 1 - attempt`; when it hits zero the loop exits and the
captured `lastError` is thrown. -/
def withRetryGo {E T : Type} (f : Nat → Except E T) (baseDelayMs maxAttempts : Nat) :
    Nat → Nat → Option E → RetryTrace E T
  | attempt, 0, lastError => ⟨Except.error lastError, attempt - 1, []⟩
  | attempt, remaining + 1, _ =>
    match f attempt with
    | Except.ok v => ⟨Except.ok v, attempt, []⟩
    | Except.error e =>
      if attempt < maxAttempts then
        let t := withRetryGo f baseDelayMs maxAttempts (attempt + 1) remaining (some e)
        ⟨t.result, t.attemptsMade, (baseDelayMs * 2 ^ (attempt - 1)) :: t.delays⟩
      else ⟨Except.error (some e), attempt, []⟩

/-- `withRetry(fn, maxAttempts = MAX_ATTEMPTS, baseDelayMs = RETRY_BASE_DELAY_MS)`.
The chat handler calls it with the defaults. -/
def withRetry {E T : Type} (f : Nat → Except E T) (maxAttempts : Nat := MAX_ATTEMPTS)
    (baseDelayMs : Nat := RETRY_BASE_DELAY_MS) : RetryTrace E T :=
  withRetryGo f baseDelayMs maxAttempts 1 maxAttempts none

/-! ## Streaming chat turn (`handleConnection` message handler) -/

/-- JavaScript `String.prototype.trimStart`. -/
def jsTrimStart (s : String) : String :=
  String.mk (s.data.dropWhile Char.isWhitespace)

/-- JavaScript `String.prototype.trim`. -/
def jsTrim (s : String) : String :=
  String.mk (((s.data.dropWhile Char.isWhitespace).reverse.dropWhile Char.isWhitespace).reverse)

inductive Role
  | system
  | user
  | assistant
deriving DecidableEq, Repr

/-- An opaque provider reasoning-detail record; only its identity matters. -/
structure RDetail where
  dtype : String
  text : Option String
deriving DecidableEq, Repr

/-- A turn of the in-memory conversation history. -/
structure ConversationMessage where
  role : Role
  content : String
  reasoning : Option String := none
  reasoningDetails : List RDetail := []
deriving DecidableEq, Repr

/-- `chunk.choices?.[0]?.delta`: optional incremental content, reasoning and
reasoning details.  `none`/`[]` embed absent fields. -/
structure Delta where
  content : Option String := none
  reasoning : Option String := none
  reasoningDetails : List RDetail := []
deriving DecidableEq, Repr

/-- One chunk of the completion stream; `delta = none` embeds a chunk with
no `choices[0].delta`. -/
structure Chunk where
  delta : Option Delta
deriving DecidableEq, Repr

/-- An outbound WebSocket frame. -/
inductive ServerEvent
  | token (content : String)
  | done
  | error (message : String)
deriving DecidableEq, Repr

/-- The generic user-facing message of the turn's `catch` block. -/
def chatErrorMessage : String := "Failed to get a response from the AI. Please try again."

/-- The mutable state of the `for await` loop over stream chunks, plus the
events sent to the client so far. -/
structure StreamAcc where
  assistantContent : String
  assistantReasoning : Option String
  assistantReasoningDetails : List RDetail
  events : List ServerEvent
deriving DecidableEq, Repr

def initAcc : StreamAcc := ⟨"", none, [], []⟩

/-- The `if (delta.content)` block: a truthy (nonempty) content string is
trimmed at the start while the accumulated content is still empty, and — if
still nonempty — appended to the buffer and sent as a `token` frame. -/
def applyContent (st : StreamAcc) (content : Option String) : StreamAcc :=
  match content with
  | none => st
  | some s =>
    if s = "" then st
    else
      let piece := if st.assistantContent = "" then jsTrimStart s else s
      if piece = "" then st
      else
        { st with
          assistantContent := st.assistantContent ++ piece
          events := st.events ++ [ServerEvent.token piece] }

/-- The `if (delta.reasoning)` block: a truthy reasoning increment is
appended to `assistantReasoning ?? ""`. -/
def applyReasoning (st : StreamAcc) (r : Option String) : StreamAcc :=
  match r with
  | none => st
  | some s =>
    if s = "" then st
    else { st with assistantReasoning := some ((st.assistantReasoning.getD "") ++ s) }

/-- The `if (delta.reasoningDetails && delta.reasoningDetails.length > 0)`
block. -/
def applyDetails (st : StreamAcc) (ds : List RDetail) : StreamAcc :=
  if ds = [] then st
  else { st with assistantReasoningDetails := st.assistantReasoningDetails ++ ds }

/-- One iteration of the `for await (const chunk of stream)` loop. -/
def stepChunk (st : StreamAcc) (c : Chunk) : StreamAcc :=
  match c.delta with
  | none => st
  | some d => applyDetails (applyReasoning (applyContent st d.content) d.reasoning) d.reasoningDetails

/-- The assistant turn pushed to history after stream exhaustion: the
source attaches `reasoning`/`reasoningDetails` only when set/nonempty, which
coincides with the record defaults here. -/
def mkAssistantTurn (st : StreamAcc) : ConversationMessage :=
  { role := Role.assistant
    content := st.assistantContent
    reasoning := st.assistantReasoning
    reasoningDetails := st.assistantReasoningDetails }

/-- The awaited outcome of one turn's completion call: either the retried
`client.chat.send` call itself failed (after retry exhaustion, or the client
could not be constructed), or a stream was obtained and yielded `chunks`,
after which it either ended normally (`midError = none`) or threw mid-stream. -/
inductive StreamOutcome (E : Type)
  | callFailed (e : E)
  | streamed (chunks : List Chunk) (midError : Option E)

/-- The turn body of the `ws.on("message")` handler for an accepted (valid,
nonempty) user message, from the `history.push({role:"user", ...})` on:
returns the frames sent to the client for this turn and the history after
the turn.  The try/catch around the completion call and stream consumption
becomes a case split on the `StreamOutcome`. -/
def runTurn {E : Type} (userContent : String) (history : List ConversationMessage)
    (outcome : StreamOutcome E) : List ServerEvent × List ConversationMessage :=
  let history1 := history ++ [{ role := Role.user, content := jsTrim userContent }]
  match outcome with
  | StreamOutcome.callFailed _ => ([ServerEvent.error chatErrorMessage], history1)
  | StreamOutcome.streamed chunks midErr =>
    let st := chunks.foldl stepChunk initAcc
    match midErr with
    | some _ => (st.events ++ [ServerEvent.error chatErrorMessage], history1)
    | none => (st.events ++ [ServerEvent.done], history1 ++ [mkAssistantTurn st])

/-- The pieces actually emitted as `token` frames for a chunk list, threading
only whether the accumulated content is still empty.  This is the
specification-level description the fold is proved to refine. -/
def tokenPieces : Bool → List Chunk → List String
  | _, [] => []
  | bufEmpty, c :: cs =>
    match c.delta with
    | none => tokenPieces bufEmpty cs
    | some d =>
      match d.content with
      | none => tokenPieces bufEmpty cs
      | some s =>
        if s = "" then tokenPieces bufEmpty cs
        else
          let piece := if bufEmpty then jsTrimStart s else s
          if piece = "" then tokenPieces bufEmpty cs
          else piece :: tokenPieces false cs

def isErrorEvent : ServerEvent → Bool
  | ServerEvent.error _ => true
  | _ => false

def isDoneEvent : ServerEvent → Bool
  | ServerEvent.done => true
  | _ => false

/-! ## Helper lemmas -/

theorem uint32_eq_of_toNat (a b : UInt32) (h : a.toNat = b.toNat) : a = b := by
  cases a; cases b
  congr 1
  exact BitVec.eq_of_toNat_eq h

theorem char_eq_of_toNat (a b : Char) (h : a.toNat = b.toNat) : a = b :=
  Char.eq_of_val_eq (uint32_eq_of_toNat a.val b.val h)

theorem lexLe_total : ∀ as bs, lexLe as bs = true ∨ lexLe bs as = true := by
  intro as
  induction as with
  | nil => intro bs; left; rfl
  | cons a as ih =>
    intro bs
    cases bs with
    | nil => right; rfl
    | cons b bs =>
      by_cases h1 : a.toNat < b.toNat
      · left; simp [lexLe, h1]
      · by_cases h2 : b.toNat < a.toNat
        · right; simp [lexLe, h2]
        · rcases ih bs with h | h
          · left; simp [lexLe, h1, h2, h]
          · right; simp [lexLe, h1, h2, h]

theorem lexLe_trans : ∀ as bs cs, lexLe as bs = true → lexLe bs cs = true →
    lexLe as cs = true := by
  intro as
  induction as with
  | nil => intro bs cs _ _; rfl
  | cons a as ih =>
    intro bs cs h1 h2
    cases bs with
    | nil => simp [lexLe] at h1
    | cons b bs =>
      cases cs with
      | nil => simp [lexLe] at h2
      | cons c cs =>
        simp only [lexLe] at h1 h2 ⊢
        split_ifs at h1 h2 ⊢ <;>
          first
          | rfl
          | omega
          | exact ih bs cs h1 h2

theorem lexLe_antisymm : ∀ as bs, lexLe as bs = true → lexLe bs as = true → as = bs := by
  intro as
  induction as with
  | nil =>
    intro bs h1 h2
    cases bs with
    | nil => rfl
    | cons b bs => simp [lexLe] at h2
  | cons a as ih =>
    intro bs h1 h2
    cases bs with
    | nil => simp [lexLe] at h1
    | cons b bs =>
      simp only [lexLe] at h1 h2
      split_ifs at h1 h2 <;> try omega
      · have hab : a = b := char_eq_of_toNat a b (by omega)
        rw [hab, ih bs h1 h2]

theorem string_eq_of_data (s t : String) (h : s.data = t.data) : s = t := by
  cases s
  cases t
  exact congrArg String.mk (by simpa using h)

theorem insertionSort_key_canonical (l₁ l₂ : List (String × String))
    (hp : l₁.Perm l₂) (hnd : (l₁.map Prod.fst).Nodup) :
    l₁.insertionSort (fun a b => lexLe a.1.data b.1.data = true)
      = l₂.insertionSort (fun a b => lexLe a.1.data b.1.data = true) := by
  haveI : IsTotal (String × String) (fun a b => lexLe a.1.data b.1.data = true) :=
    ⟨fun a b => lexLe_total a.1.data b.1.data⟩
  haveI : IsTrans (String × String) (fun a b => lexLe a.1.data b.1.data = true) :=
    ⟨fun a b c => lexLe_trans a.1.data b.1.data c.1.data⟩
  haveI : IsAntisymm (String × String)
      (fun a b => (lexLe a.1.data b.1.data = true) ∧ a.1 ≠ b.1) := by
    constructor
    intro a b h1 h2
    exact absurd (string_eq_of_data a.1 b.1 (lexLe_antisymm _ _ h1.1 h2.1)) h1.2
  have hperm := (List.perm_insertionSort (fun a b : String × String =>
    lexLe a.1.data b.1.data = true) l₁).trans
    (hp.trans (List.perm_insertionSort (fun a b : String × String =>
      lexLe a.1.data b.1.data = true) l₂).symm)
  have hs₁ := List.sorted_insertionSort (fun a b : String × String =>
    lexLe a.1.data b.1.data = true) l₁
  have hs₂ := List.sorted_insertionSort (fun a b : String × String =>
    lexLe a.1.data b.1.data = true) l₂
  have hnd₂ : (l₂.map Prod.fst).Nodup := (hp.map Prod.fst).nodup_iff.mp hnd
  have hne₁ : (l₁.insertionSort fun a b => lexLe a.1.data b.1.data = true).Pairwise
      (fun a b => a.1 ≠ b.1) := by
    have h0 : l₁.Pairwise (fun a b : String × String => a.1 ≠ b.1) := by
      simpa [List.Nodup, List.pairwise_map] using hnd
    exact ((List.perm_insertionSort (fun a b : String × String =>
      lexLe a.1.data b.1.data = true) l₁).pairwise_iff (fun h he => h he.symm)).mpr h0
  have hne₂ : (l₂.insertionSort fun a b => lexLe a.1.data b.1.data = true).Pairwise
      (fun a b => a.1 ≠ b.1) := by
    have h0 : l₂.Pairwise (fun a b : String × String => a.1 ≠ b.1) := by
      simpa [List.Nodup, List.pairwise_map] using hnd₂
    exact ((List.perm_insertionSort (fun a b : String × String =>
      lexLe a.1.data b.1.data = true) l₂).pairwise_iff (fun h he => h he.symm)).mpr h0
  exact List.eq_of_perm_of_sorted hperm (hs₁.and hne₁) (hs₂.and hne₂)

theorem keys_filterMap_sublist (p : List (String × Option String)) :
    ((p.filterMap fun kv => kv.2.map fun v => (kv.1, v)).map Prod.fst).Sublist
      (p.map Prod.fst) := by
  induction p with
  | nil => simp
  | cons kv rest ih =>
    cases hv : kv.2 with
    | none =>
      simp only [List.filterMap_cons, hv, Option.map_none', List.map_cons]
      exact ih.cons _
    | some v =>
      simp only [List.filterMap_cons, hv, Option.map_some', List.map_cons]
      exact ih.cons₂ _

theorem filterMap_filter_isSome (p : List (String × Option String)) :
    ((p.filter fun kv => kv.2.isSome).filterMap fun kv => kv.2.map fun v => (kv.1, v))
      = p.filterMap fun kv => kv.2.map fun v => (kv.1, v) := by
  induction p with
  | nil => rfl
  | cons kv rest ih =>
    cases hv : kv.2 <;>
      simp [List.filter_cons, List.filterMap_cons, hv, ih]

theorem removeFirstOcc_self_append (pat rest : List Char) (hne : pat ≠ []) :
    removeFirstOcc pat (pat ++ rest) = rest := by
  match pat, hne with
  | p :: ps, _ =>
    show removeFirstOcc (p :: ps) (p :: (ps ++ rest)) = rest
    rw [removeFirstOcc]
    have hpre : (p :: ps).isPrefixOf (p :: (ps ++ rest)) = true := by
      rw [List.isPrefixOf_iff_prefix]
      exact List.prefix_append (p :: ps) rest
    rw [if_pos hpre]
    exact List.drop_left (p :: ps) rest

theorem string_append_ne_empty (a p : String) (hp : p ≠ "") : a ++ p ≠ "" := by
  intro h
  apply hp
  have hd : (a ++ p).data = [] := by rw [h]
  rw [String.data_append] at hd
  have : p.data = [] := (List.append_eq_nil.mp hd).2
  cases p with
  | mk l =>
    simp only at this
    rw [this]

theorem applyReasoning_preserve (st : StreamAcc) (r : Option String) :
    (applyReasoning st r).events = st.events
    ∧ (applyReasoning st r).assistantContent = st.assistantContent := by
  cases r with
  | none => exact ⟨rfl, rfl⟩
  | some s => by_cases hs : s = "" <;> simp [applyReasoning, hs]

theorem applyDetails_preserve (st : StreamAcc) (ds : List RDetail) :
    (applyDetails st ds).events = st.events
    ∧ (applyDetails st ds).assistantContent = st.assistantContent := by
  by_cases hds : ds = [] <;> simp [applyDetails, hds]

theorem stepChunk_events_content (st : StreamAcc) (c : Chunk) :
    (stepChunk st c).events = (applyContent st (c.delta.bind Delta.content)).events
    ∧ (stepChunk st c).assistantContent
      = (applyContent st (c.delta.bind Delta.content)).assistantContent := by
  cases c with
  | mk delta =>
    cases delta with
    | none => exact ⟨rfl, rfl⟩
    | some d =>
      constructor
      · show (applyDetails (applyReasoning (applyContent st d.content) d.reasoning)
            d.reasoningDetails).events = _
        rw [(applyDetails_preserve _ _).1, (applyReasoning_preserve _ _).1]
        rfl
      · show (applyDetails (applyReasoning (applyContent st d.content) d.reasoning)
            d.reasoningDetails).assistantContent = _
        rw [(applyDetails_preserve _ _).2, (applyReasoning_preserve _ _).2]
        rfl

theorem applyContent_empty_buffer (st : StreamAcc) (s : String) (hs : s ≠ "")
    (hbuf : st.assistantContent = "") :
    applyContent st (some s)
      = if jsTrimStart s = "" then st
        else { st with
            assistantContent := st.assistantContent ++ jsTrimStart s,
            events := st.events ++ [ServerEvent.token (jsTrimStart s)] } := by
  simp [applyContent, hs, hbuf]

theorem applyContent_nonempty_buffer (st : StreamAcc) (s : String) (hs : s ≠ "")
    (hbuf : st.assistantContent ≠ "") :
    applyContent st (some s)
      = { st with
          assistantContent := st.assistantContent ++ s,
          events := st.events ++ [ServerEvent.token s] } := by
  simp [applyContent, hs, hbuf]

theorem contentNe_iff_false (st' : StreamAcc) (h : st'.assistantContent ≠ "") :
    (st'.assistantContent = "" ↔ false = true) :=
  ⟨fun hc => absurd hc h, fun hc => (Bool.false_ne_true hc).elim⟩

theorem tokenPieces_cons_none (b : Bool) (c : Chunk) (cs : List Chunk)
    (hoc : c.delta.bind Delta.content = none) :
    tokenPieces b (c :: cs) = tokenPieces b cs := by
  cases c with
  | mk delta =>
    cases delta with
    | none => rfl
    | some d =>
      cases hd : d.content with
      | none => simp [tokenPieces, hd]
      | some s =>
        exfalso
        rw [show (Chunk.mk (some d)).delta.bind Delta.content = d.content from rfl, hd] at hoc
        exact absurd hoc (by simp)

theorem tokenPieces_cons_some (b : Bool) (c : Chunk) (cs : List Chunk) (s : String)
    (hoc : c.delta.bind Delta.content = some s) :
    tokenPieces b (c :: cs)
      = if s = "" then tokenPieces b cs
        else if (if b then jsTrimStart s else s) = "" then tokenPieces b cs
        else (if b then jsTrimStart s else s) :: tokenPieces false cs := by
  cases c with
  | mk delta =>
    cases delta with
    | none => exact absurd hoc (by simp)
    | some d =>
      have hd : d.content = some s := hoc
      simp only [tokenPieces, hd]


theorem foldl_stepChunk_events : ∀ (chunks : List Chunk) (st : StreamAcc) (b : Bool),
    (st.assistantContent = "" ↔ b = true) →
    (chunks.foldl stepChunk st).events
      = st.events ++ (tokenPieces b chunks).map ServerEvent.token := by
  intro chunks
  induction chunks with
  | nil =>
    intro st b _
    simp [tokenPieces]
  | cons c cs ih =>
    intro st b hb
    rw [List.foldl_cons]
    have hev := (stepChunk_events_content st c).1
    have hco := (stepChunk_events_content st c).2
    cases hoc : c.delta.bind Delta.content with
    | none =>
      rw [hoc] at hev hco
      have hev2 : (stepChunk st c).events = st.events := hev
      have hco2 : (stepChunk st c).assistantContent = st.assistantContent := hco
      rw [ih (stepChunk st c) b (by rw [hco2]; exact hb), hev2,
        tokenPieces_cons_none b c cs hoc]
    | some s =>
      rw [hoc] at hev hco
      rw [tokenPieces_cons_some b c cs s hoc]
      by_cases hs : s = ""
      · rw [if_pos hs]
        rw [hs] at hev hco
        have hev2 : (stepChunk st c).events = st.events := hev
        have hco2 : (stepChunk st c).assistantContent = st.assistantContent := hco
        exact ih (stepChunk st c) b (by rw [hco2]; exact hb) |>.trans (by rw [hev2])
      · rw [if_neg hs]
        cases b with
        | true =>
          have hbuf : st.assistantContent = "" := hb.mpr rfl
          rw [applyContent_empty_buffer st s hs hbuf] at hev hco
          by_cases hp : jsTrimStart s = ""
          · rw [if_pos hp] at hev hco
            have hev2 : (stepChunk st c).events = st.events := hev
            have hco2 : (stepChunk st c).assistantContent = st.assistantContent := hco
            simp only [if_true, hp, if_pos rfl]
            exact ih (stepChunk st c) true (by rw [hco2]; exact hb) |>.trans (by rw [hev2])
          · rw [if_neg hp] at hev hco
            have hev2 : (stepChunk st c).events
                = st.events ++ [ServerEvent.token (jsTrimStart s)] := hev
            have hco2 : (stepChunk st c).assistantContent
                = st.assistantContent ++ jsTrimStart s := hco
            have hne : (stepChunk st c).assistantContent ≠ "" := by
              rw [hco2]
              exact string_append_ne_empty _ _ hp
            rw [ih (stepChunk st c) false (contentNe_iff_false _ hne), hev2]
            simp only [if_true, if_neg hp, List.map_cons, List.append_assoc,
              List.singleton_append]
        | false =>
          have hbuf : st.assistantContent ≠ "" := by
            intro hcontra
            exact Bool.false_ne_true (hb.mp hcontra)
          rw [applyContent_nonempty_buffer st s hs hbuf] at hev hco
          have hev2 : (stepChunk st c).events = st.events ++ [ServerEvent.token s] := hev
          have hco2 : (stepChunk st c).assistantContent = st.assistantContent ++ s := hco
          have hne : (stepChunk st c).assistantContent ≠ "" := by
            rw [hco2]
            exact string_append_ne_empty _ _ hs
          rw [ih (stepChunk st c) false (contentNe_iff_false _ hne), hev2]
          simp only [Bool.false_eq_true, if_false, if_neg hs, List.map_cons,
            List.append_assoc, List.singleton_append]

end Onlinegarn

namespace Onlinegarn

/-! ## Claims -/

/-- C1 (amended): `sanitizeId` is deterministic, and for every GID made of
`gid://` followed by characters that are each Meilisearch-safe or the `/`
separator, the sanitized id contains only alphanumerics, hyphens and
underscores.  (For arbitrary input strings the guarantee fails, see the
counterexample.) -/
theorem sanitizeId_safe (rest : List Char)
    (h : ∀ c ∈ rest, isMeiliSafeChar c = true ∨ c = '/') :
    ((sanitizeId (String.mk ("gid://".data ++ rest))).data.all isMeiliSafeChar = true)
    ∧ (∀ g : String, sanitizeId g = sanitizeId g) := by
  refine ⟨?_, fun g => rfl⟩
  show ((removeFirstOcc "gid://".data ("gid://".data ++ rest)).map
      fun c => if c = '/' then '-' else c).all isMeiliSafeChar = true
  rw [removeFirstOcc_self_append _ _ (by decide)]
  rw [List.all_map, List.all_eq_true]
  intro c hc
  rcases h c hc with hsafe | hslash
  · by_cases hcs : c = '/'
    · simp [Function.comp, hcs, isMeiliSafeChar]
    · simpa [Function.comp, hcs] using hsafe
  · simp [Function.comp, hslash, isMeiliSafeChar]

/-- C1 witness: a realistic product GID satisfies the hypothesis and maps to
a Meilisearch-safe id. -/
theorem sanitizeId_safe_witness :
    (∀ c ∈ "shopify/Product/123".data, isMeiliSafeChar c = true ∨ c = '/')
    ∧ ((sanitizeId (String.mk ("gid://".data ++ "shopify/Product/123".data))).data.all
        isMeiliSafeChar = true) :=
  ⟨by decide, (sanitizeId_safe "shopify/Product/123".data (by decide)).1⟩

/-- C1 counterexample: on the GID-shaped input `gid://shopify/Product/1.2`
the sanitized id keeps the `.`, which is not alphanumeric, hyphen or
underscore — the claim's guarantee does not hold for every input string. -/
theorem sanitizeId_unsafe :
    sanitizeId "gid://shopify/Product/1.2" = "shopify-Product-1.2"
    ∧ ("shopify-Product-1.2".data.all isMeiliSafeChar) = false := by
  constructor
  · rfl
  · decide

/-- C3: `getCached` on a store hit returns the deserialized cached value and
never invokes the fetcher (the outcome does not depend on `fetchR`, no `set`
is performed, and the fetch count is 0); on a miss it invokes the fetcher
exactly once, stores the serialized result under the key with a 600-second
expiry, and returns the result. -/
theorem getCached_read_through : ∀ {E T : Type} (cached : String) (fetchR : Except E T)
    (setR : Except E Unit) (deser : String → T) (ser : T → String) (key : String) (v : T),
    (getCached (Except.ok (some cached)) fetchR setR deser ser key
      = (Except.ok (deser cached), [], 0))
    ∧ (getCached (E := E) (Except.ok none) (Except.ok v) (Except.ok ()) deser ser key
      = (Except.ok v, [⟨key, ser v, 600⟩], 1)) :=
  fun _ _ _ _ _ _ _ => ⟨rfl, rfl⟩

/-- C4: if the store lookup fails, `getCached` propagates that error
unmodified, performs no `set` and never invokes the fetcher; if the fetcher
fails (on a miss), the error propagates unmodified and `set` is never
invoked. -/
theorem getCached_error_propagation : ∀ {E T : Type} (e e' : E) (fetchR : Except E T)
    (setR : Except E Unit) (deser : String → T) (ser : T → String) (key : String),
    (getCached (Except.error e) fetchR setR deser ser key = (Except.error e, [], 0))
    ∧ (getCached (T := T) (Except.ok none) (Except.error e') setR deser ser key
      = (Except.error e', [], 1)) :=
  fun _ _ _ _ _ _ _ => ⟨rfl, rfl⟩

/-- C6: with the defaults used by the chat handler, `withRetry` makes at
most 3 attempts, and its full behavior is: return the first success
immediately; between consecutive attempts wait 500ms then 1000ms; after a
third failed attempt retry no further and propagate the last error. -/
theorem withRetry_policy : ∀ {E T : Type} (f : Nat → Except E T),
    ((withRetry f).attemptsMade ≤ MAX_ATTEMPTS)
    ∧ withRetry f =
      (match f 1 with
       | Except.ok v => ⟨Except.ok v, 1, []⟩
       | Except.error _ =>
         match f 2 with
         | Except.ok v => ⟨Except.ok v, 2, [500]⟩
         | Except.error _ =>
           match f 3 with
           | Except.ok v => ⟨Except.ok v, 3, [500, 1000]⟩
           | Except.error e => ⟨Except.error (some e), 3, [500, 1000]⟩) := by
  intro E T f
  have hchar : withRetry f =
      (match f 1 with
       | Except.ok v => (⟨Except.ok v, 1, []⟩ : RetryTrace E T)
       | Except.error _ =>
         match f 2 with
         | Except.ok v => ⟨Except.ok v, 2, [500]⟩
         | Except.error _ =>
           match f 3 with
           | Except.ok v => ⟨Except.ok v, 3, [500, 1000]⟩
           | Except.error e => ⟨Except.error (some e), 3, [500, 1000]⟩) := by
    show withRetryGo f 500 3 1 3 none = _
    rcases h1 : f 1 with e1 | v1 <;> rcases h2 : f 2 with e2 | v2 <;>
      rcases h3 : f 3 with e3 | v3 <;>
      simp [withRetryGo, h1, h2, h3]
  refine ⟨?_, hchar⟩
  rw [hchar]
  rcases f 1 with e1 | v1 <;> rcases f 2 with e2 | v2 <;> rcases f 3 with e3 | v3 <;>
    simp [MAX_ATTEMPTS]

/-- C10: `buildCacheKey` is not injective — the value `1&b=2` for parameter
`a` collides with the two parameters `a=1`, `b=2`, although the parameter
lists are not equal as sets: the `&`/`=` delimiters are not escaped. -/
theorem buildCacheKey_collision :
    buildCacheKey "products" [("a", some "1&b=2")]
      = buildCacheKey "products" [("a", some "1"), ("b", some "2")]
    ∧ ¬ ([(("a" : String), (some "1&b=2" : Option String))].Perm
        [("a", some "1"), ("b", some "2")]) := by
  constructor
  · decide
  · decide

/-- C5: `buildCacheKey` is order-independent — two parameter lists holding
the same key/value pairs in different insertion order (keys unique, as in a
JavaScript object) build the same key — and entries with an absent value do
not contribute to the built key (removing them changes nothing). -/
theorem buildCacheKey_canonical :
    (∀ (pre : String) (p₁ p₂ : List (String × Option String)), p₁.Perm p₂ →
      (p₁.map Prod.fst).Nodup → buildCacheKey pre p₁ = buildCacheKey pre p₂)
    ∧ (∀ (pre : String) (p : List (String × Option String)),
      buildCacheKey pre p = buildCacheKey pre (p.filter fun kv => kv.2.isSome)) := by
  constructor
  · intro pre p₁ p₂ hp hnd
    have hfm : (p₁.filterMap fun kv => kv.2.map fun v => (kv.1, v)).Perm
        (p₂.filterMap fun kv => kv.2.map fun v => (kv.1, v)) := hp.filterMap _
    have hndf : ((p₁.filterMap fun kv => kv.2.map fun v => (kv.1, v)).map Prod.fst).Nodup :=
      hnd.sublist (keys_filterMap_sublist p₁)
    have hsorted := insertionSort_key_canonical _ _ hfm hndf
    simp only [buildCacheKey]
    rw [hsorted]
  · intro pre p
    simp only [buildCacheKey]
    rw [filterMap_filter_isSome]

/-- C5 witness: swapping the insertion order of `a=1` and `b=2` yields the
same cache key. -/
theorem buildCacheKey_canonical_witness :
    ([(("b" : String), (some "2" : Option String)), ("a", some "1")].Perm
        [("b", some "2"), ("a", some "1")].reverse)
    ∧ (([(("b" : String), (some "2" : Option String)), ("a", some "1")].map Prod.fst).Nodup)
    ∧ buildCacheKey "products" [("b", some "2"), ("a", some "1")]
        = buildCacheKey "products" [("a", some "1"), ("b", some "2")] :=
  ⟨by decide, by decide,
    buildCacheKey_canonical.1 "products" _ _ (by decide) (by decide)⟩

/-- C2 (amended): `fetchAllProducts` keeps looping exactly while the newest
page reports `hasNextPage = true`; it stops as soon as some request returns
a malformed body (thrown error) or a page with `hasNextPage = false`.  There
is no defensive cursor check: see the counterexample for the cursor-less
looping upstream. -/
theorem fetchAllProductsGo_succ (server : Nat → Option SyncPage) (i : Nat) (st : FetchState)
    (fuel : Nat) :
    fetchAllProductsGo server i st (fuel + 1)
      = if st.hasNextPage then
          match server i with
          | none => some (Except.error ())
          | some page =>
            fetchAllProductsGo server (i + 1)
              ⟨st.allProducts ++ page.nodes.map transformProduct,
               page.pageInfo.hasNextPage, nextAfter page.pageInfo⟩ fuel
        else some (Except.ok st.allProducts) := rfl

theorem fetchAllProducts_terminates (server : Nat → Option SyncPage) (n : Nat)
    (h : TerminalResponse (server n)) : FetchTerminates server := by
  suffices hgo : ∀ (m i : Nat) (st : FetchState), TerminalResponse (server (i + m)) →
      (fetchAllProductsGo server i st (m + 2)).isSome = true by
    exact ⟨n + 2, hgo n 0 ⟨[], true, none⟩ (by simpa using h)⟩
  intro m
  induction m with
  | zero =>
    intro i st hterm
    rw [Nat.add_zero] at hterm
    show (fetchAllProductsGo server i st (1 + 1)).isSome = true
    rw [fetchAllProductsGo_succ]
    by_cases hn : st.hasNextPage
    · rw [if_pos hn]
      rcases hterm with hnone | ⟨p, hp, hpfalse⟩
      · rw [hnone]
        rfl
      · rw [hp]
        show (fetchAllProductsGo server (i + 1) _ (0 + 1)).isSome = true
        rw [fetchAllProductsGo_succ]
        simp [hpfalse]
    · rw [if_neg hn]
      rfl
  | succ m ih =>
    intro i st hterm
    show (fetchAllProductsGo server i st ((m + 2) + 1)).isSome = true
    rw [fetchAllProductsGo_succ]
    by_cases hn : st.hasNextPage
    · rw [if_pos hn]
      cases hsrv : server i with
      | none => rfl
      | some page =>
        show (fetchAllProductsGo server (i + 1) _ (m + 2)).isSome = true
        apply ih
        have heq : i + 1 + m = i + (m + 1) := by omega
        rw [heq]
        exact hterm
    · rw [if_neg hn]
      rfl

/-- C2 witness: an upstream whose very first page reports no further pages
is terminal, and the fetch loop terminates on it. -/
theorem fetchAllProducts_terminates_witness :
    TerminalResponse ((fun _ => some ⟨⟨false, none⟩, []⟩ : Nat → Option SyncPage) 0)
    ∧ FetchTerminates (fun _ => some ⟨⟨false, none⟩, []⟩) :=
  ⟨Or.inr ⟨_, rfl, rfl⟩,
    fetchAllProducts_terminates (fun _ => some ⟨⟨false, none⟩, []⟩) 0 (Or.inr ⟨_, rfl, rfl⟩)⟩

/-- An upstream that always answers `hasNextPage = true` with a null cursor
and no items. -/
def cursorlessBusyServer : Nat → Option SyncPage := fun _ => some ⟨⟨true, none⟩, []⟩

theorem cursorlessBusyServer_go_none :
    ∀ (fuel i : Nat), fetchAllProductsGo cursorlessBusyServer i ⟨[], true, none⟩ fuel = none := by
  intro fuel
  induction fuel with
  | zero => intro i; rfl
  | succ m ih =>
    intro i
    simp only [fetchAllProductsGo, cursorlessBusyServer, if_true]
    simpa [nextAfter] using ih (i + 1)

/-- C2 counterexample: against `cursorlessBusyServer` — every page has
has-more `true` but a null cursor — the loop of `fetchAllProducts` never
terminates: the claimed defensive cursor-less termination is absent from
the code (`after` is merely reset to `undefined` and the loop re-enters). -/
theorem fetchAllProducts_cursorless_loops : ¬ FetchTerminates cursorlessBusyServer := by
  rintro ⟨fuel, hfuel⟩
  have h0 : fetchAllProducts cursorlessBusyServer fuel = none :=
    cursorlessBusyServer_go_none fuel 0
  rw [h0] at hfuel
  simp at hfuel

/-- C7 (amended): on a successfully exhausted stream the client receives
exactly the `token` frames described by `tokenPieces` — one frame per
content-bearing chunk whose content is still nonempty after the
empty-buffer trimming, in chunk arrival order — followed by exactly one
`done` frame.  (A content-bearing chunk that is all whitespace while the
buffer is still empty yields no frame, so "exactly N frames for N
content-bearing chunks" does not hold in general: see the
counterexample.) -/
theorem runTurn_stream_frames : ∀ {E : Type} (u : String) (h : List ConversationMessage)
    (chunks : List Chunk),
    (runTurn (E := E) u h (StreamOutcome.streamed chunks none)).1
      = (tokenPieces true chunks).map ServerEvent.token ++ [ServerEvent.done] := by
  intro E u h chunks
  show (chunks.foldl stepChunk initAcc).events ++ [ServerEvent.done] = _
  rw [foldl_stepChunk_events chunks initAcc true (by exact ⟨fun _ => rfl, fun _ => rfl⟩)]
  rfl

/-- C7 counterexample: a turn whose stream consists of one content-bearing
chunk `" "` (all whitespace) produces zero `token` frames, not one — the
frame is swallowed by the first-chunk trimming. -/
theorem runTurn_whitespace_chunk_dropped :
    (runTurn (E := Unit) "hello" []
        (StreamOutcome.streamed [Chunk.mk (some (Delta.mk (some " ") none []))] none)).1
      = [ServerEvent.done] := by
  decide

/-- C8 (amended): a truthy content chunk is start-trimmed precisely while the
accumulated assistant content is still empty — so not only the literal first
content chunk: if the first chunks trim to nothing, later chunks are trimmed
too — and once the accumulated content is nonempty every chunk is appended
and emitted verbatim.  The trimmed piece is both accumulated and emitted. -/
theorem applyContent_trim_policy : ∀ (st : StreamAcc) (s : String), s ≠ "" →
    (st.assistantContent = "" →
      applyContent st (some s)
        = if jsTrimStart s = "" then st
          else { st with
              assistantContent := st.assistantContent ++ jsTrimStart s,
              events := st.events ++ [ServerEvent.token (jsTrimStart s)] })
    ∧ (st.assistantContent ≠ "" →
      applyContent st (some s)
        = { st with
            assistantContent := st.assistantContent ++ s,
            events := st.events ++ [ServerEvent.token s] }) :=
  fun st s hs =>
    ⟨fun hbuf => applyContent_empty_buffer st s hs hbuf,
     fun hbuf => applyContent_nonempty_buffer st s hs hbuf⟩

/-- C8 witness: on an empty buffer the chunk `" hi"` is trimmed to `"hi"`
before being accumulated and emitted. -/
theorem applyContent_trim_policy_witness :
    ((" hi" : String) ≠ "")
    ∧ (initAcc.assistantContent = "")
    ∧ applyContent initAcc (some " hi")
        = if jsTrimStart " hi" = "" then initAcc
          else { initAcc with
              assistantContent := initAcc.assistantContent ++ jsTrimStart " hi",
              events := initAcc.events ++ [ServerEvent.token (jsTrimStart " hi")] } :=
  ⟨by decide, rfl, (applyContent_trim_policy initAcc " hi" (by decide)).1 rfl⟩

/-- C8 counterexample: when the first content chunk `" "` is all whitespace,
the second content chunk `" hi"` is *also* trimmed — it is emitted as `"hi"`,
not verbatim — refuting "every subsequent content chunk is emitted
verbatim". -/
theorem second_chunk_not_verbatim :
    (runTurn (E := Unit) "q" []
        (StreamOutcome.streamed
          [Chunk.mk (some (Delta.mk (some " ") none [])),
           Chunk.mk (some (Delta.mk (some " hi") none []))] none)).1
      = [ServerEvent.token "hi", ServerEvent.done]
    ∧ (" hi" : String) ≠ "hi" := by
  constructor
  · decide
  · decide

/-- C9: on a turn whose completion call fails (after retry exhaustion) the
client receives exactly one `error` frame and nothing else; on a mid-stream
failure the client receives the already-emitted `token` frames followed by
exactly one `error` frame and no `done` frame; in both cases the history
after the turn is the prior history plus the trimmed user turn only — no
assistant turn is appended. -/
theorem runTurn_failure_frames : ∀ {E : Type} (u : String) (h : List ConversationMessage)
    (e : E) (chunks : List Chunk),
    (runTurn u h (StreamOutcome.callFailed e)
      = ([ServerEvent.error chatErrorMessage],
         h ++ [{ role := Role.user, content := jsTrim u }]))
    ∧ ((runTurn u h (StreamOutcome.streamed chunks (some e))).1
      = (tokenPieces true chunks).map ServerEvent.token ++ [ServerEvent.error chatErrorMessage])
    ∧ ((runTurn u h (StreamOutcome.streamed chunks (some e))).1.countP isErrorEvent = 1)
    ∧ ((runTurn u h (StreamOutcome.streamed chunks (some e))).1.countP isDoneEvent = 0)
    ∧ ((runTurn u h (StreamOutcome.streamed chunks (some e))).2
      = h ++ [{ role := Role.user, content := jsTrim u }]) := by
  intro E u h e chunks
  have hframes : (runTurn u h (StreamOutcome.streamed chunks (some e))).1
      = (tokenPieces true chunks).map ServerEvent.token
        ++ [ServerEvent.error chatErrorMessage] := by
    show (chunks.foldl stepChunk initAcc).events ++ [ServerEvent.error chatErrorMessage] = _
    rw [foldl_stepChunk_events chunks initAcc true (by exact ⟨fun _ => rfl, fun _ => rfl⟩)]
    rfl
  refine ⟨rfl, hframes, ?_, ?_, rfl⟩
  · rw [hframes, List.countP_append, List.countP_map]
    simp [isErrorEvent, Function.comp, List.countP_cons]
  · rw [hframes, List.countP_append, List.countP_map]
    simp [isDoneEvent, Function.comp, List.countP_cons]

end Onlinegarn
